import Mathlib

/-!
Shallow embedding of the vacuum-cleaning simulation in `M1Actividad.py`
(mesa-based multi-agent grid model). Randomness is modelled by an explicit
tape of PRNG outputs; Python error branches (ValueError from randrange,
KeyError from set.remove) are modelled by `Option`; the float dirt
percentage is modelled exactly by a rational number; the rejection-sampling
loop that seeds dirty cells takes explicit fuel (it terminates only with
probability one).
-/

namespace Vacuum

/-- A grid coordinate, as stored in mesa MultiGrid positions and in the
model's dirty-cell set. -/
abbrev Coord := Int × Int

/-- A tape of pseudo-random draws: the successive outputs of a PRNG. -/
abbrev Tape := Nat → Nat

/-- Advance the tape past one consumed draw. -/
def shift (f : Tape) : Tape := fun n => f (n + 1)

/-- Prepend a draw to a tape. -/
def tcons (a : Nat) (f : Tape) : Tape := fun n =>
  match n with
  | 0 => a
  | n + 1 => f n

/-- The all-zero tape, used for concrete runs. -/
def zeroTape : Tape := fun _ => 0

/-- Python `random.randrange(n)`: raises ValueError (modelled `none`) when
`n ≤ 0`, otherwise returns a value in `[0, n)` taken from the tape. -/
def randrange (n : Int) (f : Tape) : Option (Int × Tape) :=
  if 0 < n then some (((f 0 % n.toNat : Nat) : Int), shift f) else none

/-- The eight Moore-neighborhood offsets (radius 1, center excluded). -/
def mooreOffsets : List Coord :=
  [(-1, -1), (-1, 0), (-1, 1), (0, -1), (0, 1), (1, -1), (1, 0), (1, 1)]

/-- mesa `Grid.out_of_bounds` on a non-torus M×N grid. -/
def out_of_bounds (M N : Int) (p : Coord) : Bool :=
  decide (p.1 < 0) || decide (M ≤ p.1) || decide (p.2 < 0) || decide (N ≤ p.2)

/-- mesa `MultiGrid.get_neighborhood(pos, moore=True, include_center=False,
radius=1)` on a torus=False grid: the in-bounds Moore neighbors of `pos`.
Out-of-bounds candidates are excluded, never clamped or wrapped. -/
def get_neighborhood (M N : Int) (pos : Coord) : List Coord :=
  (mooreOffsets.map (fun d => (pos.1 + d.1, pos.2 + d.2))).filter
    (fun p => !out_of_bounds M N p)

/-- The state of one `VacuumAgent`: its id, its grid position (owned by the
grid in mesa), and its per-tick move counter. -/
structure VacuumAgent where
  unique_id : Nat
  pos : Coord
  moves : Nat
deriving DecidableEq

/-- Python `set.remove`: KeyError (modelled `none`) when the element is
absent, otherwise the set without the element. -/
def pySetRemove (s : Finset Coord) (c : Coord) : Option (Finset Coord) :=
  if c ∈ s then some (s.erase c) else none

/-- The `valid_neighbors` computed in `VacuumAgent.step`: the neighborhood
returned by the grid, re-filtered against `out_of_bounds`. -/
def valid_neighbors (M N : Int) (pos : Coord) : List Coord :=
  (get_neighborhood M N pos).filter (fun p => !out_of_bounds M N p)

/-- `VacuumAgent.step` from the source: if the agent's cell is dirty, remove
it from the registry and end the turn; otherwise compute the in-bounds Moore
neighbors, re-filter them for bounds, and when nonempty move to one chosen by
the tape, incrementing the move counter. `none` models a Python exception. -/
def VacuumAgent.step (M N : Int) (a : VacuumAgent) (dirty_cells : Finset Coord)
    (f : Tape) : Option (VacuumAgent × Finset Coord × Tape) :=
  if a.pos ∈ dirty_cells then
    match pySetRemove dirty_cells a.pos with
    | some d => some (a, d, f)
    | none => none
  else
    let vn := valid_neighbors M N a.pos
    if vn.length = 0 then
      some (a, dirty_cells, f)
    else
      let new_position := vn.getD (f 0 % vn.length) a.pos
      some ({ a with pos := new_position, moves := a.moves + 1 }, dirty_cells, shift f)

/-- Swap the elements at positions `i` and `j` of a list (Python
`x[i], x[j] = x[j], x[i]`); identity when an index is out of range. -/
def listSwap (l : List α) (i j : Nat) : List α :=
  match l[i]?, l[j]? with
  | some a, some b => (l.set i b).set j a
  | _, _ => l

/-- The Fisher-Yates loop of Python `random.shuffle`: for `i` from `len-1`
down to `1`, swap position `i` with a tape-chosen position `j ≤ i`. -/
def shuffleAux : Nat → List α → Tape → List α × Tape
  | 0, l, f => (l, f)
  | i + 1, l, f => shuffleAux i (listSwap l (i + 1) (f 0 % (i + 2))) (shift f)

/-- Python `random.shuffle` on a list. -/
def pyShuffle (l : List α) (f : Tape) : List α × Tape :=
  shuffleAux (l.length - 1) l f

/-- The per-tick activation loop of `VacuumModel.step`: run each agent in
order, add its move counter to the running total, then reset the counter to
zero. `none` propagates a Python exception from an agent's turn. -/
def activationLoop (M N : Int) :
    List VacuumAgent → Finset Coord → Tape → Nat →
      Option (List VacuumAgent × Finset Coord × Tape × Nat)
  | [], dirty, f, total => some ([], dirty, f, total)
  | a :: rest, dirty, f, total =>
    match VacuumAgent.step M N a dirty f with
    | none => none
    | some (a1, dirty1, f1) =>
      match activationLoop M N rest dirty1 f1 (total + a1.moves) with
      | none => none
      | some (l2, dirty2, f2, total2) =>
        some ({ a1 with moves := 0 } :: l2, dirty2, f2, total2)

/-- The state of a `VacuumModel`: grid dimensions, step budget, agent count,
the agent list, the dirty-cell set, the step counter, the accumulated total
moves, and the running flag. -/
structure VacuumModel where
  M : Int
  N : Int
  tiempo_max : Int
  num_agents : Nat
  agents_list : List VacuumAgent
  dirty_cells : Finset Coord
  step_count : Nat
  total_moves : Nat
  running : Bool
deriving DecidableEq

/-- Python `int()` on a (here exact, rational) number: truncation toward
zero, as applied to `total_celdas * porcentaje_sucias / 100`. -/
def ratTrunc (q : ℚ) : Int := if 0 ≤ q then ⌊q⌋ else -⌊-q⌋

/-- The dirty-cell seeding loop of `VacuumModel.__init__`: while the set has
fewer than `num_sucias` members, draw `x = randrange M`, `y = randrange N`
and insert `(x, y)`. Fuel bounds the number of iterations; `none` models
either a ValueError from `randrange` or exceeding the fuel (the Python loop
terminates only with probability one). -/
def seedLoop (M N : Int) (num_sucias : Int) :
    Nat → Finset Coord → Tape → Option (Finset Coord × Tape)
  | 0, s, f => if num_sucias ≤ (s.card : Int) then some (s, f) else none
  | fuel + 1, s, f =>
    if num_sucias ≤ (s.card : Int) then some (s, f)
    else
      match randrange M f with
      | none => none
      | some (x, f1) =>
        match randrange N f1 with
        | none => none
        | some (y, f2) => seedLoop M N num_sucias fuel (insert (x, y) s) f2

/-- mesa `Grid.place_agent`: records an agent at a grid position; indexing
the underlying grid raises (modelled `none`) when the position lies outside
the grid's bounds, as happens for `(0, 0)` on a zero-width or zero-height
grid. -/
def place_agent (M N : Int) (pos : Coord) (a : VacuumAgent) :
    Option VacuumAgent :=
  if out_of_bounds M N pos then none else some a

/-- The agent-placement part of the creation loop in
`VacuumModel.__init__`: each created agent is placed on the grid at
`(0, 0)`; a placement failure aborts construction. -/
def placeAll (M N : Int) : List VacuumAgent → Option (List VacuumAgent)
  | [] => some []
  | a :: rest =>
    match place_agent M N ((0 : Int), (0 : Int)) a with
    | none => none
    | some a1 =>
      match placeAll M N rest with
      | none => none
      | some l => some (a1 :: l)

/-- `VacuumModel.__init__`: compute `num_sucias = int(M*N*p/100)`, seed the
dirty-cell set by rejection sampling from the model's own PRNG tape, create
`num_agents` agents with sequential ids and place each at `(0, 0)` (a
failing placement, e.g. on a zero-width grid, propagates as `none`), and
start with step count 0, total moves 0 and the running flag true. No
parameter validation is performed, mirroring the source. -/
def VacuumModel.init (M N : Int) (num_agents : Nat) (porcentaje_sucias : ℚ)
    (tiempo_max : Int) (selfRand : Tape) (fuel : Nat) :
    Option (VacuumModel × Tape) :=
  let total_celdas : Int := M * N
  let num_sucias : Int := ratTrunc ((total_celdas : ℚ) * porcentaje_sucias / 100)
  match seedLoop M N num_sucias fuel ∅ selfRand with
  | none => none
  | some (dirty, r) =>
    match placeAll M N ((List.range num_agents).map (fun i => ⟨i, (0, 0), 0⟩)) with
    | none => none
    | some agents =>
      some ({ M := M, N := N, tiempo_max := tiempo_max,
              num_agents := num_agents, agents_list := agents,
              dirty_cells := dirty, step_count := 0, total_moves := 0,
              running := true }, r)

/-- `VacuumModel.step`: shuffle the agent list, run the activation loop,
increment the step counter, and clear the running flag when the dirty set is
empty or the step counter has reached the budget. There is no guard on the
running flag, mirroring the source. -/
def VacuumModel.step (m : VacuumModel) (f : Tape) : Option (VacuumModel × Tape) :=
  let sh := pyShuffle m.agents_list f
  match activationLoop m.M m.N sh.1 m.dirty_cells sh.2 m.total_moves with
  | none => none
  | some (agents1, dirty1, f2, total1) =>
    let sc := m.step_count + 1
    let running1 := if dirty1 = ∅ ∨ m.tiempo_max ≤ (sc : Int) then false else m.running
    some ({ m with
              agents_list := agents1,
              dirty_cells := dirty1,
              step_count := sc,
              total_moves := total1,
              running := running1 }, f2)

/-- Run `n` consecutive ticks. -/
def runTicks : Nat → VacuumModel → Tape → Option (VacuumModel × Tape)
  | 0, m, f => some (m, f)
  | n + 1, m, f =>
    match VacuumModel.step m f with
    | none => none
    | some (m1, f1) => runTicks n m1 f1

/-- A full run: construct the model from its parameters and the model PRNG
tape, then advance `n` ticks driven by the global PRNG tape. -/
def runSim (M N : Int) (num_agents : Nat) (p : ℚ) (tiempo_max : Int)
    (selfRand globalRand : Tape) (fuel n : Nat) : Option (VacuumModel × Tape) :=
  match VacuumModel.init M N num_agents p tiempo_max selfRand fuel with
  | none => none
  | some (m, _) => runTicks n m globalRand

/-- A coordinate lies within the M×N grid. -/
def inBounds (M N : Int) (p : Coord) : Prop :=
  0 ≤ p.1 ∧ p.1 < M ∧ 0 ≤ p.2 ∧ p.2 < N

/-- States reachable by constructing a model with positive dimensions and
advancing it any number of ticks. -/
inductive Reachable : VacuumModel → Prop where
  | init (M N : Int) (na : Nat) (p : ℚ) (tm : Int) (f r : Tape) (fuel : Nat)
      (m : VacuumModel) (hM : 1 ≤ M) (hN : 1 ≤ N)
      (h : VacuumModel.init M N na p tm f fuel = some (m, r)) : Reachable m
  | step (m : VacuumModel) (f f1 : Tape) (m1 : VacuumModel) (hm : Reachable m)
      (h : VacuumModel.step m f = some (m1, f1)) : Reachable m1

/-! Helper lemmas about the embedded operations. -/

/-- On a dirty cell the agent cleans: the cell is erased, the agent itself
(position and move counter) is unchanged. -/
theorem agent_step_clean (M N : Int) (a : VacuumAgent) (dirty : Finset Coord)
    (f : Tape) (h : a.pos ∈ dirty) :
    VacuumAgent.step M N a dirty f = some (a, dirty.erase a.pos, f) := by
  simp [VacuumAgent.step, pySetRemove, h]

/-- On a clean cell with no valid neighbor the agent does nothing. -/
theorem agent_step_stuck (M N : Int) (a : VacuumAgent) (dirty : Finset Coord)
    (f : Tape) (h : a.pos ∉ dirty) (hv : (valid_neighbors M N a.pos).length = 0) :
    VacuumAgent.step M N a dirty f = some (a, dirty, f) := by
  simp [VacuumAgent.step, h, hv]

/-- On a clean cell with valid neighbors the agent moves to the tape-chosen
neighbor and increments its move counter. -/
theorem agent_step_move (M N : Int) (a : VacuumAgent) (dirty : Finset Coord)
    (f : Tape) (h : a.pos ∉ dirty) (hv : (valid_neighbors M N a.pos).length ≠ 0) :
    VacuumAgent.step M N a dirty f =
      some ({ a with
                pos := (valid_neighbors M N a.pos).getD
                  (f 0 % (valid_neighbors M N a.pos).length) a.pos,
                moves := a.moves + 1 }, dirty, shift f) := by
  simp [VacuumAgent.step, h, hv]

/-- An in-range `List.getD` is a member of the list. -/
theorem getD_mem_of_lt (l : List α) (n : Nat) (d : α) (h : n < l.length) :
    l.getD n d ∈ l := by
  have h1 : l[n]? = some l[n] := List.getElem?_eq_getElem h
  simp [List.getD, List.get?_eq_getElem?, h1]

/-- A coordinate passes the `out_of_bounds` test exactly when it lies within
the grid. -/
theorem not_out_of_bounds_iff (M N : Int) (p : Coord) :
    out_of_bounds M N p = false ↔ inBounds M N p := by
  simp [out_of_bounds, inBounds, not_le, not_lt]
  tauto

/-- Every member of `valid_neighbors` is an in-bounds member of the Moore
neighborhood returned by the grid. -/
theorem mem_valid_neighbors (M N : Int) (pos p : Coord)
    (h : p ∈ valid_neighbors M N pos) :
    p ∈ get_neighborhood M N pos ∧ inBounds M N p := by
  have h1 := List.of_mem_filter h
  have h2 := List.mem_of_mem_filter h
  refine ⟨h2, ?_⟩
  rw [← not_out_of_bounds_iff]
  simpa using h1

/-- Swapping two positions preserves list length. -/
theorem length_listSwap (l : List α) (i j : Nat) :
    (listSwap l i j).length = l.length := by
  unfold listSwap
  cases h1 : l[i]? <;> cases h2 : l[j]? <;> simp

/-- Every element of a swapped list was an element of the original list. -/
theorem mem_of_mem_listSwap {l : List α} {i j : Nat} {x : α}
    (h : x ∈ listSwap l i j) : x ∈ l := by
  unfold listSwap at h
  cases h1 : l[i]? with
  | none => rw [h1] at h; exact h
  | some a =>
    cases h2 : l[j]? with
    | none => rw [h1, h2] at h; exact h
    | some b =>
      rw [h1, h2] at h
      rcases List.mem_or_eq_of_mem_set h with h3 | h3
      · rcases List.mem_or_eq_of_mem_set h3 with h4 | h4
        · exact h4
        · exact h4 ▸ List.getElem?_mem h2
      · exact h3 ▸ List.getElem?_mem h1

/-- The Fisher-Yates loop preserves list length. -/
theorem length_shuffleAux (n : Nat) :
    ∀ (l : List α) (f : Tape), ((shuffleAux n l f).1).length = l.length := by
  induction n with
  | zero => intro l f; rfl
  | succ n ih =>
    intro l f
    rw [shuffleAux, ih, length_listSwap]

/-- Every element after the Fisher-Yates loop was in the original list. -/
theorem mem_of_mem_shuffleAux (n : Nat) :
    ∀ (l : List α) (f : Tape) (x : α), x ∈ (shuffleAux n l f).1 → x ∈ l := by
  induction n with
  | zero => intro l f x h; exact h
  | succ n ih =>
    intro l f x h
    rw [shuffleAux] at h
    exact mem_of_mem_listSwap (ih _ _ _ h)

/-- Shuffling preserves list length. -/
theorem length_pyShuffle (l : List α) (f : Tape) :
    ((pyShuffle l f).1).length = l.length :=
  length_shuffleAux _ l f

/-- Every element of a shuffled list was in the original list. -/
theorem mem_of_mem_pyShuffle {l : List α} {f : Tape} {x : α}
    (h : x ∈ (pyShuffle l f).1) : x ∈ l :=
  mem_of_mem_shuffleAux _ l f x h

/-- An agent's turn never raises: the dirty-cell removal is guarded by the
membership test it immediately follows. -/
theorem agent_step_isSome (M N : Int) (a : VacuumAgent) (dirty : Finset Coord)
    (f : Tape) : (VacuumAgent.step M N a dirty f).isSome = true := by
  by_cases h : a.pos ∈ dirty
  · rw [agent_step_clean M N a dirty f h]; rfl
  · by_cases hv : (valid_neighbors M N a.pos).length = 0
    · rw [agent_step_stuck M N a dirty f h hv]; rfl
    · rw [agent_step_move M N a dirty f h hv]; rfl

/-- Case analysis on an agent's turn: the result either leaves the agent in
place with the dirty set shrunk by a membership-guarded erase, or leaves the
agent in place entirely, or moves the agent to a valid neighbor with the move
counter incremented and the dirty set untouched. -/
theorem agent_step_cases (M N : Int) (a : VacuumAgent) (dirty : Finset Coord)
    (f : Tape) (a1 : VacuumAgent) (d1 : Finset Coord) (f1 : Tape)
    (h : VacuumAgent.step M N a dirty f = some (a1, d1, f1)) :
    (a.pos ∈ dirty ∧ a1 = a ∧ d1 = dirty.erase a.pos ∧ f1 = f) ∨
    (a.pos ∉ dirty ∧ a1 = a ∧ d1 = dirty ∧ f1 = f) ∨
    (a.pos ∉ dirty ∧ a1.pos ∈ valid_neighbors M N a.pos ∧
      a1.unique_id = a.unique_id ∧ a1.moves = a.moves + 1 ∧ d1 = dirty) := by
  by_cases hd : a.pos ∈ dirty
  · rw [agent_step_clean M N a dirty f hd] at h
    simp only [Option.some.injEq, Prod.mk.injEq] at h
    obtain ⟨h1, h2, h3⟩ := h
    subst h1; subst h2; subst h3
    exact Or.inl ⟨hd, rfl, rfl, rfl⟩
  · by_cases hv : (valid_neighbors M N a.pos).length = 0
    · rw [agent_step_stuck M N a dirty f hd hv] at h
      simp only [Option.some.injEq, Prod.mk.injEq] at h
      obtain ⟨h1, h2, h3⟩ := h
      subst h1; subst h2; subst h3
      exact Or.inr (Or.inl ⟨hd, rfl, rfl, rfl⟩)
    · rw [agent_step_move M N a dirty f hd hv] at h
      simp only [Option.some.injEq, Prod.mk.injEq] at h
      obtain ⟨h1, h2, h3⟩ := h
      subst h1; subst h2; subst h3
      have hmem : (valid_neighbors M N a.pos).getD
          (f 0 % (valid_neighbors M N a.pos).length) a.pos ∈
          valid_neighbors M N a.pos :=
        getD_mem_of_lt _ _ _ (Nat.mod_lt _ (Nat.pos_of_ne_zero hv))
      exact Or.inr (Or.inr ⟨hd, hmem, rfl, rfl, rfl⟩)

/-- Unfolding equation for the activation loop on a cons cell, given the
results of the head agent's turn and of the rest of the loop. -/
theorem activationLoop_cons_some (M N : Int) (a : VacuumAgent)
    (rest : List VacuumAgent) (dirty : Finset Coord) (f : Tape) (total : Nat)
    (a1 : VacuumAgent) (dmid : Finset Coord) (fmid : Tape)
    (l2 : List VacuumAgent) (d2 : Finset Coord) (f2 : Tape) (t2 : Nat)
    (hs : VacuumAgent.step M N a dirty f = some (a1, dmid, fmid))
    (hr : activationLoop M N rest dmid fmid (total + a1.moves) =
      some (l2, d2, f2, t2)) :
    activationLoop M N (a :: rest) dirty f total =
      some ({ a1 with moves := 0 } :: l2, d2, f2, t2) := by
  simp [activationLoop, hs, hr]

/-- The activation loop never raises. -/
theorem activationLoop_isSome (M N : Int) :
    ∀ (l : List VacuumAgent) (dirty : Finset Coord) (f : Tape) (total : Nat),
      (activationLoop M N l dirty f total).isSome = true := by
  intro l
  induction l with
  | nil => intro dirty f total; rfl
  | cons a rest ih =>
    intro dirty f total
    obtain ⟨⟨a1, dmid, fmid⟩, hs⟩ :=
      Option.isSome_iff_exists.mp (agent_step_isSome M N a dirty f)
    obtain ⟨⟨l2, d2, f2, t2⟩, hr⟩ :=
      Option.isSome_iff_exists.mp (ih dmid fmid (total + a1.moves))
    rw [activationLoop_cons_some M N a rest dirty f total a1 dmid fmid
      l2 d2 f2 t2 hs hr]
    rfl

/-- Structural facts about one pass of the activation loop: the dirty set
only shrinks, every returned agent has its move counter reset to zero, and
the agent count is preserved. -/
theorem activationLoop_spec (M N : Int) :
    ∀ (l : List VacuumAgent) (dirty : Finset Coord) (f : Tape) (total : Nat)
      (l1 : List VacuumAgent) (d1 : Finset Coord) (f1 : Tape) (t1 : Nat),
      activationLoop M N l dirty f total = some (l1, d1, f1, t1) →
      d1 ⊆ dirty ∧ (∀ x ∈ l1, x.moves = 0) ∧ l1.length = l.length := by
  intro l
  induction l with
  | nil =>
    intro dirty f total l1 d1 f1 t1 h
    rw [activationLoop] at h
    simp only [Option.some.injEq, Prod.mk.injEq] at h
    obtain ⟨h1, h2, h3, h4⟩ := h
    subst h1; subst h2
    exact ⟨le_refl _, by simp, rfl⟩
  | cons a rest ih =>
    intro dirty f total l1 d1 f1 t1 h
    obtain ⟨⟨a1, dmid, fmid⟩, hs⟩ :=
      Option.isSome_iff_exists.mp (agent_step_isSome M N a dirty f)
    obtain ⟨⟨l2, d2, f2, t2⟩, hr⟩ :=
      Option.isSome_iff_exists.mp
        (activationLoop_isSome M N rest dmid fmid (total + a1.moves))
    rw [activationLoop_cons_some M N a rest dirty f total a1 dmid fmid
      l2 d2 f2 t2 hs hr] at h
    simp only [Option.some.injEq, Prod.mk.injEq] at h
    obtain ⟨h1, h2, h3, h4⟩ := h
    subst h1; subst h2
    obtain ⟨ih1, ih2, ih3⟩ := ih dmid fmid (total + a1.moves) l2 d2 f2 t2 hr
    have hsub : dmid ⊆ dirty := by
      rcases agent_step_cases M N a dirty f a1 dmid fmid hs with
        ⟨_, _, hdm, _⟩ | ⟨_, _, hdm, _⟩ | ⟨_, _, _, _, hdm⟩
      · exact hdm ▸ Finset.erase_subset _ _
      · exact hdm ▸ le_refl _
      · exact hdm ▸ le_refl _
    refine ⟨ih1.trans hsub, ?_, by simp [ih3]⟩
    intro x hx
    rcases List.mem_cons.mp hx with hx | hx
    · rw [hx]
    · exact ih2 x hx

/-- If every agent entering the loop is in bounds and every dirty cell is in
bounds, every agent leaving the loop is in bounds. -/
theorem activationLoop_bounds (M N : Int) :
    ∀ (l : List VacuumAgent) (dirty : Finset Coord) (f : Tape) (total : Nat)
      (l1 : List VacuumAgent) (d1 : Finset Coord) (f1 : Tape) (t1 : Nat),
      activationLoop M N l dirty f total = some (l1, d1, f1, t1) →
      (∀ x ∈ l, inBounds M N x.pos) → ∀ x ∈ l1, inBounds M N x.pos := by
  intro l
  induction l with
  | nil =>
    intro dirty f total l1 d1 f1 t1 h hb
    rw [activationLoop] at h
    simp only [Option.some.injEq, Prod.mk.injEq] at h
    obtain ⟨h1, h2, h3, h4⟩ := h
    subst h1
    simp
  | cons a rest ih =>
    intro dirty f total l1 d1 f1 t1 h hb
    obtain ⟨⟨a1, dmid, fmid⟩, hs⟩ :=
      Option.isSome_iff_exists.mp (agent_step_isSome M N a dirty f)
    obtain ⟨⟨l2, d2, f2, t2⟩, hr⟩ :=
      Option.isSome_iff_exists.mp
        (activationLoop_isSome M N rest dmid fmid (total + a1.moves))
    rw [activationLoop_cons_some M N a rest dirty f total a1 dmid fmid
      l2 d2 f2 t2 hs hr] at h
    simp only [Option.some.injEq, Prod.mk.injEq] at h
    obtain ⟨h1, h2, h3, h4⟩ := h
    subst h1
    have ha1 : inBounds M N a1.pos := by
      rcases agent_step_cases M N a dirty f a1 dmid fmid hs with
        ⟨_, ha, _, _⟩ | ⟨_, ha, _, _⟩ | ⟨_, hmem, _, _, _⟩
      · exact ha ▸ hb a (List.mem_cons_self a rest)
      · exact ha ▸ hb a (List.mem_cons_self a rest)
      · exact (mem_valid_neighbors M N a.pos a1.pos hmem).2
    intro x hx
    rcases List.mem_cons.mp hx with hx | hx
    · rw [hx]; exact ha1
    · exact ih dmid fmid (total + a1.moves) l2 d2 f2 t2 hr
        (fun y hy => hb y (List.mem_cons_of_mem a hy)) x hx

/-- Unfolding equation for a tick, given the activation loop's result. -/
theorem model_step_eq (m : VacuumModel) (f : Tape)
    (l1 : List VacuumAgent) (d1 : Finset Coord) (f2 : Tape) (t1 : Nat)
    (h : activationLoop m.M m.N (pyShuffle m.agents_list f).1 m.dirty_cells
      (pyShuffle m.agents_list f).2 m.total_moves = some (l1, d1, f2, t1)) :
    VacuumModel.step m f =
      some ({ m with
                agents_list := l1,
                dirty_cells := d1,
                step_count := m.step_count + 1,
                total_moves := t1,
                running := if d1 = ∅ ∨ m.tiempo_max ≤ ((m.step_count + 1 : Nat) : Int)
                  then false else m.running }, f2) := by
  simp [VacuumModel.step, h]

/-- A tick never raises. -/
theorem model_step_isSome (m : VacuumModel) (f : Tape) :
    (VacuumModel.step m f).isSome = true := by
  obtain ⟨⟨l1, d1, f2, t1⟩, ha⟩ :=
    Option.isSome_iff_exists.mp (activationLoop_isSome m.M m.N
      (pyShuffle m.agents_list f).1 m.dirty_cells
      (pyShuffle m.agents_list f).2 m.total_moves)
  rw [model_step_eq m f l1 d1 f2 t1 ha]
  rfl

/-- Inversion of a tick: recover the activation loop's result and the shape
of the successor state. -/
theorem model_step_inv (m : VacuumModel) (f : Tape) (m1 : VacuumModel)
    (f1 : Tape) (h : VacuumModel.step m f = some (m1, f1)) :
    ∃ l1 d1 t1,
      activationLoop m.M m.N (pyShuffle m.agents_list f).1 m.dirty_cells
        (pyShuffle m.agents_list f).2 m.total_moves = some (l1, d1, f1, t1) ∧
      m1 = { m with
               agents_list := l1,
               dirty_cells := d1,
               step_count := m.step_count + 1,
               total_moves := t1,
               running := if d1 = ∅ ∨ m.tiempo_max ≤ ((m.step_count + 1 : Nat) : Int)
                 then false else m.running } := by
  obtain ⟨⟨l1, d1, f2, t1⟩, ha⟩ :=
    Option.isSome_iff_exists.mp (activationLoop_isSome m.M m.N
      (pyShuffle m.agents_list f).1 m.dirty_cells
      (pyShuffle m.agents_list f).2 m.total_moves)
  rw [model_step_eq m f l1 d1 f2 t1 ha] at h
  simp only [Option.some.injEq, Prod.mk.injEq] at h
  obtain ⟨h1, h2⟩ := h
  subst h2
  exact ⟨l1, d1, t1, ha, h1.symm⟩

/-- When the target is already covered the seeding loop stops at once. -/
theorem seedLoop_of_le (M N : Int) (t : Int) (fuel : Nat) (s : Finset Coord)
    (f : Tape) (h : t ≤ (s.card : Int)) :
    seedLoop M N t fuel s f = some (s, f) := by
  cases fuel <;> simp [seedLoop, h]

/-- Placement succeeds and returns the agents unchanged whenever the shared
starting coordinate `(0, 0)` is within the grid's bounds. -/
theorem placeAll_of_inbounds (M N : Int)
    (hb : out_of_bounds M N ((0 : Int), (0 : Int)) = false) :
    ∀ l : List VacuumAgent, placeAll M N l = some l := by
  intro l
  induction l with
  | nil => rfl
  | cons a rest ih =>
    rw [placeAll, place_agent, hb]
    simp [ih]

/-- The shared starting coordinate `(0, 0)` is on the grid whenever both
dimensions are positive. -/
theorem origin_inbounds (M N : Int) (hM : 1 ≤ M) (hN : 1 ≤ N) :
    out_of_bounds M N ((0 : Int), (0 : Int)) = false := by
  rw [not_out_of_bounds_iff]
  show (0 : Int) ≤ 0 ∧ (0 : Int) < M ∧ (0 : Int) ≤ 0 ∧ (0 : Int) < N
  omega

/-- Inversion of placement: when placement succeeds it returns exactly the
list of created agents. -/
theorem placeAll_inv (M N : Int) :
    ∀ l l1 : List VacuumAgent, placeAll M N l = some l1 → l1 = l := by
  intro l
  induction l with
  | nil =>
    intro l1 h
    rw [placeAll] at h
    simp only [Option.some.injEq] at h
    exact h.symm
  | cons a rest ih =>
    intro l1 h
    rw [placeAll] at h
    cases hp : place_agent M N ((0 : Int), (0 : Int)) a with
    | none => rw [hp] at h; simp at h
    | some a1 =>
      rw [hp] at h
      cases hr : placeAll M N rest with
      | none => rw [hr] at h; simp at h
      | some l2 =>
        rw [hr] at h
        simp only [Option.some.injEq] at h
        have ha1 : a1 = a := by
          rw [place_agent] at hp
          split at hp
          · simp at hp
          · exact (Option.some.inj hp).symm
        rw [← h, ha1, ih l2 hr]

/-- Inversion of `VacuumModel.init`: recover the seeded dirty set and the
shape of the initial state. -/
theorem init_inv (M N : Int) (na : Nat) (p : ℚ) (tm : Int) (f r : Tape)
    (fuel : Nat) (m : VacuumModel)
    (h : VacuumModel.init M N na p tm f fuel = some (m, r)) :
    ∃ dirty,
      seedLoop M N (ratTrunc (((M * N : Int) : ℚ) * p / 100)) fuel ∅ f =
        some (dirty, r) ∧
      m = { M := M, N := N, tiempo_max := tm, num_agents := na,
            agents_list := (List.range na).map (fun i => ⟨i, (0, 0), 0⟩),
            dirty_cells := dirty, step_count := 0, total_moves := 0,
            running := true } := by
  rw [VacuumModel.init] at h
  cases hsd : seedLoop M N (ratTrunc (((M * N : Int) : ℚ) * p / 100)) fuel ∅ f with
  | none => rw [hsd] at h; simp at h
  | some out =>
    obtain ⟨dirty, r1⟩ := out
    rw [hsd] at h
    cases hpl : placeAll M N ((List.range na).map (fun i => ⟨i, (0, 0), 0⟩)) with
    | none => rw [hpl] at h; simp at h
    | some agents =>
      rw [hpl] at h
      simp only [Option.some.injEq, Prod.mk.injEq] at h
      obtain ⟨h1, h2⟩ := h
      subst h2
      have hagents := placeAll_inv M N _ agents hpl
      subst hagents
      exact ⟨dirty, rfl, h1.symm⟩

/-- Every cell the seeding loop adds comes from `randrange M`, `randrange N`,
so the final set is in bounds whenever the initial set is. -/
theorem seedLoop_bounds (M N : Int) (t : Int) :
    ∀ (fuel : Nat) (s : Finset Coord) (f : Tape) (s1 : Finset Coord) (f1 : Tape),
      seedLoop M N t fuel s f = some (s1, f1) →
      (∀ c ∈ s, inBounds M N c) → ∀ c ∈ s1, inBounds M N c := by
  intro fuel
  induction fuel with
  | zero =>
    intro s f s1 f1 h hb
    rw [seedLoop] at h
    split at h
    · simp only [Option.some.injEq, Prod.mk.injEq] at h
      obtain ⟨h1, h2⟩ := h
      subst h1
      exact hb
    · simp at h
  | succ fuel ih =>
    intro s f s1 f1 h hb
    rw [seedLoop] at h
    split at h
    · simp only [Option.some.injEq, Prod.mk.injEq] at h
      obtain ⟨h1, h2⟩ := h
      subst h1
      exact hb
    · by_cases hM : 0 < M
      · by_cases hN : 0 < N
        · simp only [randrange, if_pos hM, if_pos hN] at h
          refine ih _ _ _ _ h ?_
          intro c hc
          rcases Finset.mem_insert.mp hc with hc | hc
          · subst hc
            have hMt : 0 < M.toNat := by omega
            have hNt : 0 < N.toNat := by omega
            refine ⟨Int.ofNat_nonneg _, ?_, Int.ofNat_nonneg _, ?_⟩
            · have := Nat.mod_lt (f 0) hMt
              omega
            · have := Nat.mod_lt (shift f 0) hNt
              omega
          · exact hb c hc
        · simp [randrange, hM, hN] at h
      · simp [randrange, hM] at h

/-! Claim theorems. -/

/-- C10: the removal of a coordinate from the dirty-cell set during an
agent's turn never fails: the remove call executes only under a preceding
membership test on the same coordinate with no intervening mutation, so the
not-present error branch of removal (the `none` result of `pySetRemove`, the
only error branch of an agent's turn) is unreachable: every agent turn, in
any state whatsoever, returns a result. -/
theorem C10_remove_never_fails (M N : Int) (a : VacuumAgent)
    (dirty : Finset Coord) (f : Tape) :
    (VacuumAgent.step M N a dirty f).isSome = true :=
  agent_step_isSome M N a dirty f

/-- C4: the dirty-cell set shrinks monotonically: after any tick it is a
subset of what it was before the tick (so no coordinate is ever re-added
after initialization), and its cardinality never increases. -/
theorem C4_monotonic_cleanup (m : VacuumModel) (f : Tape) (m1 : VacuumModel)
    (f1 : Tape) (h : VacuumModel.step m f = some (m1, f1)) :
    m1.dirty_cells ⊆ m.dirty_cells ∧
      m1.dirty_cells.card ≤ m.dirty_cells.card := by
  obtain ⟨l1, d1, t1, ha, hm1⟩ := model_step_inv m f m1 f1 h
  have hsub := (activationLoop_spec m.M m.N _ _ _ _ _ _ _ _ ha).1
  subst hm1
  exact ⟨hsub, Finset.card_le_card hsub⟩

/-- Witness for C4 on a concrete tick: one step of a 1×1 model with no
agents and one dirty cell leaves the dirty set a subset of itself. -/
theorem C4_monotonic_cleanup_witness :
    ({ M := 1, N := 1, tiempo_max := 0, num_agents := 0, agents_list := [],
       dirty_cells := {((0 : Int), (0 : Int))}, step_count := 1,
       total_moves := 0, running := false } : VacuumModel).dirty_cells ⊆
      ({ M := 1, N := 1, tiempo_max := 0, num_agents := 0, agents_list := [],
         dirty_cells := {((0 : Int), (0 : Int))}, step_count := 0,
         total_moves := 0, running := true } : VacuumModel).dirty_cells :=
  (C4_monotonic_cleanup
    { M := 1, N := 1, tiempo_max := 0, num_agents := 0, agents_list := [],
      dirty_cells := {((0 : Int), (0 : Int))}, step_count := 0,
      total_moves := 0, running := true } zeroTape
    { M := 1, N := 1, tiempo_max := 0, num_agents := 0, agents_list := [],
      dirty_cells := {((0 : Int), (0 : Int))}, step_count := 1,
      total_moves := 0, running := false } zeroTape rfl).1

/-- C5: an agent entering its turn with a reset counter leaves with a
per-tick move count of 0 or 1, an agent that cleans contributes 0 moves and
does not move (cleaning and moving are mutually exclusive per agent per
tick); and in every reachable state every agent's counter is indeed reset to
zero, so within a tick each agent's contribution to the model total is its
turn's 0-or-1 count. -/
theorem C5_bounded_moves :
    (∀ (M N : Int) (a : VacuumAgent) (dirty : Finset Coord) (f : Tape)
        (a1 : VacuumAgent) (d1 : Finset Coord) (f1 : Tape),
        a.moves = 0 →
        VacuumAgent.step M N a dirty f = some (a1, d1, f1) →
        (a1.moves = 0 ∨ a1.moves = 1) ∧
          (a.pos ∈ dirty → a1.moves = 0 ∧ a1.pos = a.pos)) ∧
    (∀ m : VacuumModel, Reachable m → ∀ a ∈ m.agents_list, a.moves = 0) := by
  constructor
  · intro M N a dirty f a1 d1 f1 hm h
    rcases agent_step_cases M N a dirty f a1 d1 f1 h with
      ⟨hd, ha, _, _⟩ | ⟨hd, ha, _, _⟩ | ⟨hd, _, _, hmv, _⟩
    · exact ⟨Or.inl (ha ▸ hm), fun _ => ⟨ha ▸ hm, ha ▸ rfl⟩⟩
    · exact ⟨Or.inl (ha ▸ hm), fun hc => absurd hc hd⟩
    · exact ⟨Or.inr (by rw [hmv, hm]), fun hc => absurd hc hd⟩
  · intro m hr
    induction hr with
    | init M N na p tm f r fuel m hM hN h =>
      obtain ⟨dirty, _, hm⟩ := init_inv M N na p tm f r fuel m h
      subst hm
      intro a ha
      obtain ⟨i, _, hi⟩ := List.mem_map.mp ha
      rw [← hi]
    | step m f f1 m1 hm h ih =>
      obtain ⟨l1, d1, t1, ha, hm1⟩ := model_step_inv m f m1 f1 h
      subst hm1
      exact (activationLoop_spec m.M m.N _ _ _ _ _ _ _ _ ha).2.1

/-- Witness for C5 on a concrete turn: an agent on the dirty cell of a 1×1
grid cleans and ends with move count 0 (not 1). -/
theorem C5_bounded_moves_witness :
    (⟨0, ((0 : Int), (0 : Int)), 0⟩ : VacuumAgent).moves = 0 ∨
      (⟨0, ((0 : Int), (0 : Int)), 0⟩ : VacuumAgent).moves = 1 :=
  (C5_bounded_moves.1 1 1 ⟨0, ((0 : Int), (0 : Int)), 0⟩
    {((0 : Int), (0 : Int))} zeroTape ⟨0, ((0 : Int), (0 : Int)), 0⟩
    (Finset.erase {((0 : Int), (0 : Int))} ((0 : Int), (0 : Int))) zeroTape
    rfl rfl).1

/-- C1 counterexample: with step budget 0 (a valid, non-negative budget), a
1×1 model seeded 100% dirty and given no agents reaches `Finished`
(running = false) at the end of its first tick even though the dirty set is
non-empty (card 1) and the step counter (1) differs from the budget (0).
This refutes the claimed iff with "step counter equals the budget". -/
theorem C1_counterexample :
    ((VacuumModel.init 1 1 0 100 0 zeroTape 1).bind
        (fun p => (VacuumModel.step p.1 zeroTape).map
          (fun q => (q.1.running, q.1.dirty_cells.card, q.1.step_count,
            q.1.tiempo_max)))) =
      some (false, 1, 1, 0) := by
  have hrt : ratTrunc (((1 * 1 : Int) : ℚ) * 100 / 100) = 1 := by
    have h : (((1 * 1 : Int) : ℚ) * 100 / 100) = 1 := by norm_num
    rw [ratTrunc, h]
    norm_num
  simp only [VacuumModel.init]
  rw [hrt]
  rfl

/-- C1 amended: at the end of a tick the engine is `Finished` iff the
dirty-cell set is empty, or the step counter is greater than or equal to
(not exactly equal to) the step budget, or the engine was already finished
before the tick; consequently a tick that leaves dirty cells and a step
counter still below the budget keeps a running engine running. -/
theorem C1_amended_termination (m : VacuumModel) (f : Tape) (m1 : VacuumModel)
    (f1 : Tape) (h : VacuumModel.step m f = some (m1, f1)) :
    m1.running = false ↔
      (m1.dirty_cells = ∅ ∨ m.tiempo_max ≤ (m1.step_count : Int) ∨
        m.running = false) := by
  obtain ⟨l1, d1, t1, ha, hm1⟩ := model_step_inv m f m1 f1 h
  subst hm1
  by_cases hc : d1 = ∅ ∨ m.tiempo_max ≤ ((m.step_count + 1 : Nat) : Int)
  · simp only [if_pos hc]
    constructor
    · intro _
      rcases hc with hc | hc
      · exact Or.inl hc
      · exact Or.inr (Or.inl hc)
    · intro _
      trivial
  · simp only [if_neg hc]
    push_neg at hc
    constructor
    · intro hr
      exact Or.inr (Or.inr hr)
    · rintro (hd | hsc | hr)
      · exact absurd hd hc.1
      · exact absurd hsc (not_le.mpr hc.2)
      · exact hr

/-- Witness for the amended C1 on a concrete tick: a budget-0 model whose
first tick ends with step counter 1 ≥ 0 is finished. -/
theorem C1_amended_termination_witness :
    ({ M := 1, N := 1, tiempo_max := 0, num_agents := 0, agents_list := [],
       dirty_cells := {((0 : Int), (0 : Int))}, step_count := 1,
       total_moves := 0, running := false } : VacuumModel).running = false :=
  (C1_amended_termination
    { M := 1, N := 1, tiempo_max := 0, num_agents := 0, agents_list := [],
      dirty_cells := {((0 : Int), (0 : Int))}, step_count := 0,
      total_moves := 0, running := true } zeroTape
    { M := 1, N := 1, tiempo_max := 0, num_agents := 0, agents_list := [],
      dirty_cells := {((0 : Int), (0 : Int))}, step_count := 1,
      total_moves := 0, running := false } zeroTape rfl).mpr
    (Or.inr (Or.inl (by decide)))

/-- C6 counterexample: after a 1×1, zero-dirt, zero-agent model finishes its
first tick (running = false), calling `step()` again is not rejected: it
processes a further tick and the step counter advances from 1 to 2. -/
theorem C6_counterexample :
    ((VacuumModel.init 1 1 0 0 0 zeroTape 0).bind
        (fun p => (VacuumModel.step p.1 zeroTape).bind
          (fun q => (VacuumModel.step q.1 zeroTape).map
            (fun r => (q.1.running, r.1.step_count, r.1.running))))) =
      some (false, 2, false) := by
  have hrt : ratTrunc (((1 * 1 : Int) : ℚ) * 0 / 100) = 0 := by
    have h : (((1 * 1 : Int) : ℚ) * 0 / 100) = 0 := by norm_num
    rw [ratTrunc, h]
    norm_num
  simp only [VacuumModel.init]
  rw [hrt]
  rfl

/-- C6 amended: `step()` on an engine already in `Finished` state is not
rejected with any error: it succeeds and processes a further tick, advancing
the step counter; only the running flag stays false. `Finished` is terminal
only by the external caller's convention of polling the flag. -/
theorem C6_amended_no_guard (m : VacuumModel) (f : Tape)
    (hrun : m.running = false) :
    ∃ m1 f1, VacuumModel.step m f = some (m1, f1) ∧
      m1.step_count = m.step_count + 1 ∧ m1.running = false := by
  obtain ⟨⟨m1, f1⟩, hs⟩ :=
    Option.isSome_iff_exists.mp (model_step_isSome m f)
  obtain ⟨l1, d1, t1, ha, hm1⟩ := model_step_inv m f m1 f1 hs
  refine ⟨m1, f1, hs, ?_, ?_⟩
  · rw [hm1]
  · rw [hm1]
    by_cases hc : d1 = ∅ ∨ m.tiempo_max ≤ ((m.step_count + 1 : Nat) : Int)
    · simp only [if_pos hc]
    · simp only [if_neg hc]
      exact hrun

/-- Witness for the amended C6 on a concrete finished state. -/
theorem C6_amended_no_guard_witness :
    (VacuumModel.step
      { M := 1, N := 1, tiempo_max := 0, num_agents := 0, agents_list := [],
        dirty_cells := ∅, step_count := 1, total_moves := 0,
        running := false } zeroTape).isSome = true := by
  obtain ⟨m1, f1, hs, _, _⟩ := C6_amended_no_guard
    { M := 1, N := 1, tiempo_max := 0, num_agents := 0, agents_list := [],
      dirty_cells := ∅, step_count := 1, total_moves := 0,
      running := false } zeroTape rfl
  rw [hs]
  rfl

/-- C7 counterexample: the dirt percentage -10 lies outside [0, 100], yet
construction does not fail with any error: it produces an initialized engine
(one agent, empty dirty registry, running). -/
theorem C7_counterexample :
    ((-10 : ℚ) < 0) ∧
      (VacuumModel.init 1 1 1 (-10) 5 zeroTape 0).map
          (fun p => (p.1.dirty_cells.card, p.1.running, p.1.agents_list.length)) =
        some (0, true, 1) := by
  refine ⟨by norm_num, ?_⟩
  have hrt : ratTrunc (((1 * 1 : Int) : ℚ) * (-10) / 100) = 0 := by
    have h : (((1 * 1 : Int) : ℚ) * (-10) / 100) = -(1 / 10) := by norm_num
    rw [ratTrunc, h]
    norm_num
  simp only [VacuumModel.init]
  rw [hrt]
  rfl

/-- C7 amended: construction does not validate the dirt percentage. A
negative percentage raises no InvalidPercentage error: for any M, N ≥ 1 it
yields an initialized engine whose dirty registry is empty (the truncated
target is nonpositive), and a percentage above 100 can make the seeding
loop run forever instead of raising. No dedicated InvalidDimensions error
exists either: with zero agents and percentage 0, a zero-width grid still
yields an initialized engine (when agents are present, the failure that
does occur at M ≤ 0 is the grid library's out-of-bounds placement error,
not a dimension check). -/
theorem C7_amended_no_validation :
    (∀ (M N : Int) (na : Nat) (p : ℚ) (tm : Int) (f : Tape) (fuel : Nat),
        1 ≤ M → 1 ≤ N → p < 0 →
        (VacuumModel.init M N na p tm f fuel).map (fun x => x.1.dirty_cells) =
          some ∅) ∧
    (VacuumModel.init 0 1 0 0 5 zeroTape 0).isSome = true := by
  constructor
  · intro M N na p tm f fuel hM hN hp
    have hMN : (0 : ℚ) < ((M * N : Int) : ℚ) := by
      have : (0 : Int) < M * N := mul_pos (by omega) (by omega)
      exact_mod_cast this
    have hq : ((M * N : Int) : ℚ) * p / 100 < 0 := by
      apply div_neg_of_neg_of_pos
      · exact mul_neg_of_pos_of_neg hMN hp
      · norm_num
    have ht : ratTrunc (((M * N : Int) : ℚ) * p / 100) ≤ 0 := by
      rw [ratTrunc, if_neg (not_le.mpr hq)]
      have h0 : (0 : Int) ≤ ⌊-(((M * N : Int) : ℚ) * p / 100)⌋ :=
        Int.floor_nonneg.mpr (by linarith)
      omega
    have hpl := placeAll_of_inbounds M N (origin_inbounds M N hM hN)
      ((List.range na).map (fun i => ⟨i, (0, 0), 0⟩))
    simp only [VacuumModel.init]
    rw [seedLoop_of_le M N _ fuel ∅ f (by simpa using ht), hpl]
    rfl
  · have hrt : ratTrunc (((0 * 1 : Int) : ℚ) * 0 / 100) = 0 := by
      have h : (((0 * 1 : Int) : ℚ) * 0 / 100) = 0 := by norm_num
      rw [ratTrunc, h]
      norm_num
    simp only [VacuumModel.init]
    rw [hrt]
    rfl

/-- Witness for the amended C7 at percentage -10 on a 1×1 grid. -/
theorem C7_amended_no_validation_witness :
    (VacuumModel.init 1 1 1 (-10) 5 zeroTape 3).map
        (fun x => x.1.dirty_cells) = some ∅ :=
  C7_amended_no_validation.1 1 1 1 (-10) 5 zeroTape 3
    (by norm_num) (by norm_num) (by norm_num)

/-- C2: in every reachable state of a model constructed with dimensions
M ≥ 1 and N ≥ 1, every agent position and every dirty-cell coordinate lies
within [0,M)×[0,N); moreover whenever an agent's turn changes its position,
the new position is an in-bounds member of the Moore neighborhood returned
by the grid (never a clamped or wrapped coordinate). -/
theorem C2_bounds :
    (∀ m : VacuumModel, Reachable m →
        (∀ a ∈ m.agents_list, inBounds m.M m.N a.pos) ∧
          (∀ c ∈ m.dirty_cells, inBounds m.M m.N c)) ∧
    (∀ (M N : Int) (a : VacuumAgent) (dirty : Finset Coord) (f : Tape)
        (a1 : VacuumAgent) (d1 : Finset Coord) (f1 : Tape),
        VacuumAgent.step M N a dirty f = some (a1, d1, f1) →
        a1.pos = a.pos ∨
          (a1.pos ∈ get_neighborhood M N a.pos ∧ inBounds M N a1.pos)) := by
  constructor
  · intro m hr
    induction hr with
    | init M N na p tm f r fuel m hM hN h =>
      obtain ⟨dirty, hsd, hm⟩ := init_inv M N na p tm f r fuel m h
      subst hm
      constructor
      · intro a ha
        obtain ⟨i, _, hi⟩ := List.mem_map.mp ha
        rw [← hi]
        show inBounds M N ((0 : Int), (0 : Int))
        simp only [inBounds]
        refine ⟨le_refl 0, by omega, le_refl 0, by omega⟩
      · exact seedLoop_bounds M N _ fuel ∅ f dirty r hsd (by simp)
    | step m f f1 m1 hm h ih =>
      obtain ⟨l1, d1, t1, ha, hm1⟩ := model_step_inv m f m1 f1 h
      subst hm1
      constructor
      · exact activationLoop_bounds m.M m.N _ _ _ _ _ _ _ _ ha
          (fun x hx => ih.1 x (mem_of_mem_pyShuffle hx))
      · intro c hc
        exact ih.2 c ((activationLoop_spec m.M m.N _ _ _ _ _ _ _ _ ha).1 hc)
  · intro M N a dirty f a1 d1 f1 h
    rcases agent_step_cases M N a dirty f a1 d1 f1 h with
      ⟨_, ha, _, _⟩ | ⟨_, ha, _, _⟩ | ⟨_, hmem, _, _, _⟩
    · exact Or.inl (ha ▸ rfl)
    · exact Or.inl (ha ▸ rfl)
    · exact Or.inr (mem_valid_neighbors M N a.pos a1.pos hmem)

/-- Witness for C2 at a concrete reachable state: the single agent of a
freshly constructed 1×1 model sits in bounds at (0, 0). -/
theorem C2_bounds_witness : inBounds 1 1 ((0 : Int), (0 : Int)) := by
  have hrt : ratTrunc (((1 * 1 : Int) : ℚ) * 0 / 100) = 0 := by
    have h : (((1 * 1 : Int) : ℚ) * 0 / 100) = 0 := by norm_num
    rw [ratTrunc, h]
    norm_num
  have hinit : VacuumModel.init 1 1 1 0 1 zeroTape 0 =
      some ({ M := 1, N := 1, tiempo_max := 1, num_agents := 1,
              agents_list := [⟨0, ((0 : Int), (0 : Int)), 0⟩],
              dirty_cells := ∅, step_count := 0, total_moves := 0,
              running := true }, zeroTape) := by
    simp only [VacuumModel.init]
    rw [hrt]
    rfl
  have hr : Reachable
      { M := 1, N := 1, tiempo_max := 1, num_agents := 1,
        agents_list := [⟨0, ((0 : Int), (0 : Int)), 0⟩],
        dirty_cells := ∅, step_count := 0, total_moves := 0,
        running := true } :=
    Reachable.init 1 1 1 0 1 zeroTape zeroTape 0 _ (by norm_num) (by norm_num)
      hinit
  exact (C2_bounds.1 _ hr).1 ⟨0, ((0 : Int), (0 : Int)), 0⟩ (by simp)

/-- The finite set of all in-bounds coordinates of an M×N grid. -/
def gridCells (M N : Int) : Finset Coord :=
  (Finset.Ico 0 M) ×ˢ (Finset.Ico 0 N)

/-- Membership in `gridCells` is exactly `inBounds`. -/
theorem mem_gridCells (M N : Int) (c : Coord) :
    c ∈ gridCells M N ↔ inBounds M N c := by
  simp only [gridCells, Finset.mem_product, Finset.mem_Ico, inBounds]
  tauto

/-- The M×N grid holds exactly M·N cells. -/
theorem gridCells_card (M N : Int) (hM : 0 ≤ M) (hN : 0 ≤ N) :
    ((gridCells M N).card : Int) = M * N := by
  rw [gridCells, Finset.card_product, Int.card_Ico, Int.card_Ico, sub_zero,
    sub_zero, Nat.cast_mul, Int.toNat_of_nonneg hM, Int.toNat_of_nonneg hN]

/-- When the seeding loop starts at or below its target and succeeds, the
final set holds exactly the target number of cells (the set grows by at most
one cell per iteration and the loop stops as soon as the target is met). -/
theorem seedLoop_card (M N : Int) (t : Int) :
    ∀ (fuel : Nat) (s : Finset Coord) (f : Tape) (s1 : Finset Coord) (f1 : Tape),
      (s.card : Int) ≤ t → seedLoop M N t fuel s f = some (s1, f1) →
      (s1.card : Int) = t := by
  intro fuel
  induction fuel with
  | zero =>
    intro s f s1 f1 hle h
    rw [seedLoop] at h
    split at h
    · simp only [Option.some.injEq, Prod.mk.injEq] at h
      obtain ⟨h1, h2⟩ := h
      subst h1
      omega
    · simp at h
  | succ fuel ih =>
    intro s f s1 f1 hle h
    rw [seedLoop] at h
    split at h
    · simp only [Option.some.injEq, Prod.mk.injEq] at h
      obtain ⟨h1, h2⟩ := h
      subst h1
      omega
    · by_cases hM : 0 < M
      · by_cases hN : 0 < N
        · simp only [randrange, if_pos hM, if_pos hN] at h
          refine ih _ _ _ _ ?_ h
          have hcard := Finset.card_insert_le
            ((((f 0 % M.toNat : Nat) : Int), ((shift f 0 % N.toNat : Nat) : Int))) s
          omega
        · simp [randrange, hM, hN] at h
      · simp [randrange, hM] at h

/-- Whenever the target does not exceed the grid size, some random tape and
some fuel make the seeding loop succeed (rejection sampling terminates with
probability one; here a tape that keeps producing fresh in-bounds cells is
exhibited). -/
theorem seedLoop_total (M N : Int) (hM : 0 < M) (hN : 0 < N) (t : Int)
    (ht : t ≤ M * N) :
    ∀ (k : Nat) (s : Finset Coord), s ⊆ gridCells M N →
      (t - (s.card : Int)).toNat ≤ k →
      ∃ f s1 f1, seedLoop M N t k s f = some (s1, f1) := by
  intro k
  induction k with
  | zero =>
    intro s hsub hk
    have hle : t ≤ (s.card : Int) := by omega
    exact ⟨zeroTape, s, zeroTape, seedLoop_of_le M N t 0 s zeroTape hle⟩
  | succ k ih =>
    intro s hsub hk
    by_cases hle : t ≤ (s.card : Int)
    · exact ⟨zeroTape, s, zeroTape, seedLoop_of_le M N t (k + 1) s zeroTape hle⟩
    · have hlt : (s.card : Int) < t := by omega
      have hcardlt : s.card < (gridCells M N).card := by
        have h1 : ((gridCells M N).card : Int) = M * N :=
          gridCells_card M N (le_of_lt hM) (le_of_lt hN)
        omega
      have hss : s ⊂ gridCells M N :=
        Finset.ssubset_iff_subset_ne.mpr ⟨hsub, by
          intro he
          rw [he] at hcardlt
          omega⟩
      obtain ⟨c, hcg, hcs⟩ := Finset.exists_of_ssubset hss
      have hcb : inBounds M N c := (mem_gridCells M N c).mp hcg
      obtain ⟨hc1, hc2, hc3, hc4⟩ := hcb
      obtain ⟨f0, s1, f1, hret⟩ := ih (insert c s)
        (Finset.insert_subset hcg hsub)
        (by rw [Finset.card_insert_of_not_mem hcs]; omega)
      refine ⟨tcons c.1.toNat (tcons c.2.toNat f0), s1, f1, ?_⟩
      rw [seedLoop, if_neg hle]
      have hx : ((tcons c.1.toNat (tcons c.2.toNat f0) 0 % M.toNat : Nat) : Int)
          = c.1 := by
        show ((c.1.toNat % M.toNat : Nat) : Int) = c.1
        rw [Nat.mod_eq_of_lt (by omega)]
        exact Int.toNat_of_nonneg hc1
      have hy : ((tcons c.2.toNat f0 0 % N.toNat : Nat) : Int) = c.2 := by
        show ((c.2.toNat % N.toNat : Nat) : Int) = c.2
        rw [Nat.mod_eq_of_lt (by omega)]
        exact Int.toNat_of_nonneg hc3
      simp only [randrange, if_pos hM, if_pos hN]
      show seedLoop M N t k
        (insert (((tcons c.1.toNat (tcons c.2.toNat f0) 0 % M.toNat : Nat) : Int),
          ((tcons c.2.toNat f0 0 % N.toNat : Nat) : Int)) s) f0 = some (s1, f1)
      rw [hx, hy]
      simpa using hret

/-- C3: for every M ≥ 1, N ≥ 1 and dirt percentage p in [0,100]:
(a) whenever construction returns, the dirty-cell registry holds exactly
⌊M·N·p/100⌋ distinct in-bounds coordinates; (b) when that target is 0 the
registry starts empty, for every random tape and fuel; (c) construction can
always terminate: some random tape and fuel make it return (the rejection
sampling terminates with probability one, which the embedding expresses as
the existence of a succeeding tape; a tape repeating an already-drawn cell
forever would make the Python loop spin, so termination holds only
almost surely). -/
theorem C3_seeding (M N : Int) (p : ℚ) (hM : 1 ≤ M) (hN : 1 ≤ N)
    (hp0 : 0 ≤ p) (hp1 : p ≤ 100) :
    (∀ (na : Nat) (tm : Int) (f : Tape) (fuel : Nat) (m : VacuumModel)
        (r : Tape),
        VacuumModel.init M N na p tm f fuel = some (m, r) →
        (m.dirty_cells.card : Int) = ⌊((M * N : Int) : ℚ) * p / 100⌋ ∧
          ∀ c ∈ m.dirty_cells, inBounds M N c) ∧
    (⌊((M * N : Int) : ℚ) * p / 100⌋ = 0 →
      ∀ (na : Nat) (tm : Int) (f : Tape) (fuel : Nat),
        (VacuumModel.init M N na p tm f fuel).map (fun x => x.1.dirty_cells) =
          some ∅) ∧
    (∀ (na : Nat) (tm : Int),
        ∃ (f : Tape) (fuel : Nat),
          (VacuumModel.init M N na p tm f fuel).isSome = true) := by
  have hMN : (0 : Int) ≤ M * N := mul_nonneg (by omega) (by omega)
  have hMNq : (0 : ℚ) ≤ ((M * N : Int) : ℚ) := by exact_mod_cast hMN
  have hq0 : (0 : ℚ) ≤ ((M * N : Int) : ℚ) * p / 100 :=
    div_nonneg (mul_nonneg hMNq hp0) (by norm_num)
  have hrt : ratTrunc (((M * N : Int) : ℚ) * p / 100) =
      ⌊((M * N : Int) : ℚ) * p / 100⌋ := by
    rw [ratTrunc, if_pos hq0]
  have hfl0 : 0 ≤ ⌊((M * N : Int) : ℚ) * p / 100⌋ := Int.floor_nonneg.mpr hq0
  have hqle : ((M * N : Int) : ℚ) * p / 100 ≤ ((M * N : Int) : ℚ) := by
    have h100 : p / 100 ≤ 1 := (div_le_one (by norm_num)).mpr hp1
    calc ((M * N : Int) : ℚ) * p / 100 = ((M * N : Int) : ℚ) * (p / 100) := by
          ring
      _ ≤ ((M * N : Int) : ℚ) * 1 := mul_le_mul_of_nonneg_left h100 hMNq
      _ = ((M * N : Int) : ℚ) := mul_one _
  have hfle : ⌊((M * N : Int) : ℚ) * p / 100⌋ ≤ M * N := by
    have := Int.floor_le_floor hqle
    rwa [Int.floor_intCast] at this
  refine ⟨?_, ?_, ?_⟩
  · intro na tm f fuel m r h
    obtain ⟨dirty, hsd, hm⟩ := init_inv M N na p tm f r fuel m h
    subst hm
    constructor
    · show ((dirty.card : Nat) : Int) = _
      rw [← hrt]
      exact seedLoop_card M N _ fuel ∅ f dirty r
        (by rw [Finset.card_empty, Nat.cast_zero, hrt]; exact hfl0) hsd
    · exact seedLoop_bounds M N _ fuel ∅ f dirty r hsd (by simp)
  · intro h0 na tm f fuel
    have hseed : seedLoop M N (ratTrunc (((M * N : Int) : ℚ) * p / 100))
        fuel ∅ f = some (∅, f) :=
      seedLoop_of_le M N _ fuel ∅ f (by rw [hrt, h0]; simp)
    have hpl := placeAll_of_inbounds M N (origin_inbounds M N hM hN)
      ((List.range na).map (fun i => ⟨i, (0, 0), 0⟩))
    simp only [VacuumModel.init]
    rw [hseed, hpl]
    rfl
  · intro na tm
    obtain ⟨f, s1, f1, hseed⟩ := seedLoop_total M N (by omega) (by omega)
      (ratTrunc (((M * N : Int) : ℚ) * p / 100)) (by rw [hrt]; exact hfle)
      (ratTrunc (((M * N : Int) : ℚ) * p / 100)).toNat ∅
      (Finset.empty_subset _) (by simp)
    have hpl := placeAll_of_inbounds M N (origin_inbounds M N hM hN)
      ((List.range na).map (fun i => ⟨i, (0, 0), 0⟩))
    refine ⟨f, (ratTrunc (((M * N : Int) : ℚ) * p / 100)).toNat, ?_⟩
    simp only [VacuumModel.init]
    rw [hseed, hpl]
    rfl

/-- Witness for C3 at M = N = 1, p = 100: construction on a concrete tape
seeds exactly ⌊1·1·100/100⌋ = 1 dirty cell. -/
theorem C3_seeding_witness :
    (({((0 : Int), (0 : Int))} : Finset Coord).card : Int) =
      ⌊((1 * 1 : Int) : ℚ) * 100 / 100⌋ := by
  have hrt : ratTrunc (((1 * 1 : Int) : ℚ) * 100 / 100) = 1 := by
    have h : (((1 * 1 : Int) : ℚ) * 100 / 100) = 1 := by norm_num
    rw [ratTrunc, h]
    norm_num
  have hinit : VacuumModel.init 1 1 0 100 5 zeroTape 1 =
      some ({ M := 1, N := 1, tiempo_max := 5, num_agents := 0,
              agents_list := [], dirty_cells := {((0 : Int), (0 : Int))},
              step_count := 0, total_moves := 0, running := true },
        shift (shift zeroTape)) := by
    simp only [VacuumModel.init]
    rw [hrt]
    rfl
  exact ((C3_seeding 1 1 100 (by norm_num) (by norm_num) (by norm_num)
    (by norm_num)).1 0 5 zeroTape 1 _ _ hinit).1

/-- When the dirty set is empty and every agent in the activation order has
a reset counter and at least one valid neighbor, every agent moves exactly
once: the loop succeeds, the dirty set stays empty and the total grows by
exactly the number of agents. -/
theorem activationLoop_all_move (M N : Int) :
    ∀ (l : List VacuumAgent) (f : Tape) (total : Nat),
      (∀ a ∈ l, a.moves = 0 ∧ (valid_neighbors M N a.pos).length ≠ 0) →
      ∃ l1 f1, activationLoop M N l ∅ f total =
        some (l1, ∅, f1, total + l.length) := by
  intro l
  induction l with
  | nil =>
    intro f total h
    exact ⟨[], f, by simp [activationLoop]⟩
  | cons a rest ih =>
    intro f total h
    obtain ⟨hm0, hvn⟩ := h a (List.mem_cons_self a rest)
    have hstep := agent_step_move M N a ∅ f (by simp) hvn
    obtain ⟨l2, f2, hr⟩ := ih (shift f)
      (total + ({ a with
                    pos := (valid_neighbors M N a.pos).getD
                      (f 0 % (valid_neighbors M N a.pos).length) a.pos,
                    moves := a.moves + 1 } : VacuumAgent).moves)
      (fun x hx => h x (List.mem_cons_of_mem a hx))
    refine ⟨{ unique_id := a.unique_id,
              pos := (valid_neighbors M N a.pos).getD
                (f 0 % (valid_neighbors M N a.pos).length) a.pos,
              moves := 0 } :: l2, f2, ?_⟩
    rw [activationLoop_cons_some M N a rest ∅ f total _ ∅ (shift f)
      l2 ∅ f2 _ hstep hr]
    simp [hm0]
    omega

/-- C8: for the configuration M = 5, N = 5, 3 agents, dirt percentage 0,
step budget 5 — with any random tapes and any fuel — the dirty registry
starts empty, and the first `step()` call leaves the engine `Finished` with
step count 1 and total moves exactly 3: every agent starts at (0, 0), has
valid in-bounds neighbors there, and moves exactly once. -/
theorem C8_scenario (s : Tape) (fuel : Nat) (g : Tape) :
    ∃ m0 r m1 g1,
      VacuumModel.init 5 5 3 0 5 s fuel = some (m0, r) ∧
      m0.dirty_cells = ∅ ∧
      VacuumModel.step m0 g = some (m1, g1) ∧
      m1.running = false ∧ m1.step_count = 1 ∧ m1.total_moves = 3 := by
  have hrt : ratTrunc (((5 * 5 : Int) : ℚ) * 0 / 100) = 0 := by
    have h : (((5 * 5 : Int) : ℚ) * 0 / 100) = 0 := by norm_num
    rw [ratTrunc, h]
    norm_num
  have hseed : seedLoop 5 5 (ratTrunc (((5 * 5 : Int) : ℚ) * 0 / 100))
      fuel ∅ s = some (∅, s) :=
    seedLoop_of_le 5 5 _ fuel ∅ s (by rw [hrt]; simp)
  have hinit : VacuumModel.init 5 5 3 0 5 s fuel =
      some ({ M := 5, N := 5, tiempo_max := 5, num_agents := 3,
              agents_list := [⟨0, ((0 : Int), (0 : Int)), 0⟩,
                ⟨1, ((0 : Int), (0 : Int)), 0⟩,
                ⟨2, ((0 : Int), (0 : Int)), 0⟩],
              dirty_cells := ∅, step_count := 0, total_moves := 0,
              running := true }, s) := by
    simp only [VacuumModel.init]
    rw [hseed]
    rfl
  set m0 : VacuumModel :=
    { M := 5, N := 5, tiempo_max := 5, num_agents := 3,
      agents_list := [⟨0, ((0 : Int), (0 : Int)), 0⟩,
        ⟨1, ((0 : Int), (0 : Int)), 0⟩, ⟨2, ((0 : Int), (0 : Int)), 0⟩],
      dirty_cells := ∅, step_count := 0, total_moves := 0,
      running := true } with hm0def
  have hprop : ∀ x ∈ m0.agents_list,
      x.moves = 0 ∧ (valid_neighbors (5 : Int) (5 : Int) x.pos).length ≠ 0 := by
    intro x hx
    rw [hm0def] at hx
    simp only [List.mem_cons, List.not_mem_nil, or_false] at hx
    rcases hx with rfl | rfl | rfl <;> exact ⟨rfl, by decide⟩
  have hall : ∀ x ∈ (pyShuffle m0.agents_list g).1,
      x.moves = 0 ∧ (valid_neighbors (5 : Int) (5 : Int) x.pos).length ≠ 0 :=
    fun x hx => hprop x (mem_of_mem_pyShuffle hx)
  obtain ⟨l1, f1, hact⟩ := activationLoop_all_move 5 5
    (pyShuffle m0.agents_list g).1 (pyShuffle m0.agents_list g).2 0 hall
  rw [length_pyShuffle] at hact
  have hact' : activationLoop m0.M m0.N (pyShuffle m0.agents_list g).1
      m0.dirty_cells (pyShuffle m0.agents_list g).2 m0.total_moves =
      some (l1, ∅, f1, 3) := hact
  have hstep := model_step_eq m0 g l1 ∅ f1 3 hact'
  refine ⟨m0, s, _, f1, hinit, rfl, hstep, ?_, rfl, rfl⟩
  show (if (∅ : Finset Coord) = ∅ ∨ (5 : Int) ≤ ((0 + 1 : Nat) : Int)
    then false else m0.running) = false
  simp

/-- C9: a run is a pure function of its construction parameters and its two
random tapes (the model's own sampling tape and the global tape driving the
per-tick shuffles and move choices — the code's only nondeterminism
sources); two runs with the same parameters and the same tapes agree, after
every number of ticks, on step count, dirty cells, total moves, running
flag and the full agent list. -/
theorem C9_reproducibility (M N : Int) (na : Nat) (p : ℚ) (tm : Int)
    (selfRand globalRand : Tape) (fuel n : Nat) (m1 m2 : VacuumModel)
    (f1 f2 : Tape)
    (h1 : runSim M N na p tm selfRand globalRand fuel n = some (m1, f1))
    (h2 : runSim M N na p tm selfRand globalRand fuel n = some (m2, f2)) :
    m1.step_count = m2.step_count ∧ m1.dirty_cells = m2.dirty_cells ∧
      m1.total_moves = m2.total_moves ∧ m1.running = m2.running ∧
      m1.agents_list = m2.agents_list := by
  rw [h1] at h2
  simp only [Option.some.injEq, Prod.mk.injEq] at h2
  obtain ⟨hm, _⟩ := h2
  subst hm
  exact ⟨rfl, rfl, rfl, rfl, rfl⟩

/-- Witness for C9 on a concrete one-tick run of a 1×1 zero-dirt model. -/
theorem C9_reproducibility_witness :
    ({ M := 1, N := 1, tiempo_max := 1, num_agents := 0, agents_list := [],
       dirty_cells := ∅, step_count := 1, total_moves := 0,
       running := false } : VacuumModel).step_count =
      ({ M := 1, N := 1, tiempo_max := 1, num_agents := 0, agents_list := [],
         dirty_cells := ∅, step_count := 1, total_moves := 0,
         running := false } : VacuumModel).step_count := by
  have hrt : ratTrunc (((1 * 1 : Int) : ℚ) * 0 / 100) = 0 := by
    have h : (((1 * 1 : Int) : ℚ) * 0 / 100) = 0 := by norm_num
    rw [ratTrunc, h]
    norm_num
  have hrun : runSim 1 1 0 0 1 zeroTape zeroTape 0 1 =
      some ({ M := 1, N := 1, tiempo_max := 1, num_agents := 0,
              agents_list := [], dirty_cells := ∅, step_count := 1,
              total_moves := 0, running := false }, zeroTape) := by
    simp only [runSim, VacuumModel.init]
    rw [hrt]
    rfl
  exact (C9_reproducibility 1 1 0 0 1 zeroTape zeroTape 0 1 _ _ _ _
    hrun hrun).1

end Vacuum
